import Mathlib

/-!
Shallow embedding of the maskmaker repository (src/src/maskmaker/mask.py):
a binary raster mask is built on a 2D curvilinear grid from a list of
polygon geometries.  Floating-point coordinates are modelled as exact
rationals; a NumPy ndarray of shape (rows, cols) is modelled as a
row-major list together with its length invariant.  Raised Python
exceptions are modelled by `Except`, and because the source mutates the
object in place, the error branch carries the post-mutation state.
-/

namespace Maskmaker

/-- Python zip with strict=True: pairs two lists elementwise and is
None when the lengths differ (in the source this raises ValueError). -/
def zipStrict : List α → List β → Option (List (α × β))
  | [], [] => some []
  | a :: xs, b :: ys => (zipStrict xs ys).map (fun l => (a, b) :: l)
  | _, _ => none

/-- Map a function over a list together with the running index,
starting at n. -/
def mapIdxGo (f : Nat → α → β) : Nat → List α → List β
  | _, [] => []
  | n, a :: xs => f n a :: mapIdxGo f (n + 1) xs

/-- Row-major 2D array, modelling a NumPy ndarray of shape
(rows, cols); `hlen` records that an ndarray's buffer always has
exactly rows * cols elements. -/
structure Mat (α : Type) where
  rows : Nat
  cols : Nat
  data : List α
  hlen : data.length = rows * cols

/-- Observation of the entry at (row, col); out-of-range observations
read as 0 (the source never indexes out of range on the paths modelled
here, which is proved below where it matters). -/
def Mat.entry {α : Type} [Zero α] (m : Mat α) (p : Nat × Nat) : α :=
  if p.1 < m.rows ∧ p.2 < m.cols then m.data.getD (p.1 * m.cols + p.2) 0 else 0

/-- Elementwise rebuild of an array from its flat index and old value;
this is how the vectorised NumPy assignments of the source are
modelled. -/
def matMapIdx (m : Mat α) (f : Nat → α → β) : Mat β :=
  ⟨m.rows, m.cols, mapIdxGo f 0 m.data, by
    have h : ∀ (g : Nat → α → β) (n : Nat) (l : List α),
        (mapIdxGo g n l).length = l.length := by
      intro g n l
      induction l generalizing n with
      | nil => rfl
      | cons a xs ih => simp [mapIdxGo, ih]
    rw [h, m.hlen]⟩

/-- np.zeros(shape): the zero-filled accumulation array. -/
def zerosMat (rows cols : Nat) : Mat Nat :=
  ⟨rows, cols, List.replicate (rows * cols) 0, by simp⟩

/-- Squared Euclidean distance between two points; the KDTree of the
source compares Euclidean distances, which for nonnegative bounds is
equivalent to comparing their squares, so the embedding stays inside ℚ. -/
def sqDist (p q : ℚ × ℚ) : ℚ :=
  (p.1 - q.1) * (p.1 - q.1) + (p.2 - q.2) * (p.2 - q.2)

/-- Linear scan for the nearest tree point: carries the index of the
current running minimum and its squared distance (first minimum wins on
exact ties; scipy leaves the tie order unspecified). -/
def nearestAux (p : ℚ × ℚ) : List (ℚ × ℚ) → Nat → Option (Nat × ℚ) → Option (Nat × ℚ)
  | [], _, best => best
  | q :: qs, k, none => nearestAux p qs (k + 1) (some (k, sqDist p q))
  | q :: qs, k, some (bi, bd) =>
    nearestAux p qs (k + 1)
      (if sqDist p q < bd then some (k, sqDist p q) else some (bi, bd))

/-- scipy KDTree.query(p, k=1, distance_upper_bound=dx): returns the
flat index of the nearest tree point, or the sentinel len(tree.data)
when no point lies within the bound (dx = none models the np.inf
default). -/
def queryIdx (tree : List (ℚ × ℚ)) (dx : Option ℚ) (p : ℚ × ℚ) : Nat :=
  match nearestAux p tree 0 none with
  | none => tree.length
  | some (i, d2) =>
    match dx with
    | none => i
    | some b => if 0 ≤ b ∧ d2 ≤ b * b then i else tree.length

/-- A squared distance d2 is beyond the search bound: farther than dx
from the query point (never the case for the np.inf default). -/
@[reducible] def beyondBound (dx : Option ℚ) (d2 : ℚ) : Prop :=
  match dx with
  | none => False
  | some b => ¬(0 ≤ b ∧ d2 ≤ b * b)

/-- Cell-center correction of the x array (source: x[:, :-1] becomes
the horizontal midpoints, then x[:, -1] += (tx[:, -1] - tx[:, -2]) / 2
extrapolates the last column); NumPy raises IndexError at tx[:, -2]
when cols < 2, which make_tree checks before using this. -/
def corrX (m : Mat ℚ) : Mat ℚ :=
  matMapIdx m (fun k v =>
    let i := k / m.cols
    let j := k % m.cols
    if j + 1 < m.cols then v + (m.entry (i, j + 1) - v) / 2
    else v + (v - m.entry (i, m.cols - 2)) / 2)

/-- Cell-center correction of the y array, the same rule applied
row-wise (source: y[:-1, :] midpoints, then y[-1, :] extrapolated). -/
def corrY (m : Mat ℚ) : Mat ℚ :=
  matMapIdx m (fun k v =>
    let i := k / m.cols
    let j := k % m.cols
    if i + 1 < m.rows then v + (m.entry (i + 1, j) - v) / 2
    else v + (v - m.entry (m.rows - 2, j)) / 2)

/-- Python exception kinds raised along the modelled paths. -/
inductive PyError
  | valueError (msg : String)
  | indexError (msg : String)
  | attributeError (msg : String)
  | notImplementedError (msg : String)
deriving DecidableEq

/-- Message of the ValueError raised by zip(..., strict=True) on
unequal lengths. -/
def strictZipMsg : String := "zip argument lengths differ"

/-- One exterior ring: the ordered vertex coordinates as the two
coordinate sequences returned by polygon.exterior.xy. -/
structure Exterior where
  px : List ℚ
  py : List ℚ

/-- A geometry record as produced by shape(feature): a simple polygon,
a multi-polygon (a sequence of parts, each contributing its exterior
ring), or any other geometry kind carrying its type name. -/
inductive Geometry
  | polygon (ring : Exterior)
  | multipolygon (parts : List Exterior)
  | other (kind : String)

/-- The state held by a Mask object (fields of the source class). -/
structure Mask where
  x : Mat ℚ
  y : Mat ℚ
  dx : Option ℚ
  centered : Bool
  features : List Geometry
  mask : Option (Mat Nat)
  tree : Option (List (ℚ × ℚ))

/-- Mask._make_tree: optionally apply the cell-center correction, then
zip the two flattened coordinate arrays (strict) into the list of tree
points.  The cols/rows guards model the IndexError NumPy raises at the
tx[:, -2] / ty[-2, :] reads when the corrected axis is shorter than 2. -/
def make_tree (s : Mask) : Except PyError (List (ℚ × ℚ)) :=
  if s.centered then
    match zipStrict s.x.data s.y.data with
    | none => .error (.valueError strictZipMsg)
    | some pts => .ok pts
  else
    if s.x.cols < 2 then .error (.indexError "index -2 is out of bounds")
    else if s.y.rows < 2 then .error (.indexError "index -2 is out of bounds")
    else
      match zipStrict (corrX s.x).data (corrY s.y).data with
      | none => .error (.valueError strictZipMsg)
      | some pts => .ok pts

/-- Modelled from the spec: the even-odd crossing-number step of the
point-in-polygon test used by the external raster library (skimage,
whose source is not part of this repository); §4.2 of the spec asks
for a standard even-odd fill rule.  The edge e is the pair of vertices
(p at index i, p at index j = i - 1 cyclically). -/
def pipStep (x y : ℚ) (c : Bool) (e : (ℚ × ℚ) × (ℚ × ℚ)) : Bool :=
  let a := e.1
  let b := e.2
  if (decide (y < a.2) != decide (y < b.2)) &&
      decide (x < (b.1 - a.1) * (y - a.2) / (b.2 - a.2) + a.1)
  then !c else c

/-- The cyclic edge list of a vertex list: vertex i paired with vertex
i - 1, the first vertex paired with the last. -/
def pipEdges (pts : List (ℚ × ℚ)) : List ((ℚ × ℚ) × (ℚ × ℚ)) :=
  match pts with
  | [] => []
  | p :: _ => pts.zip (pts.getLastD p :: pts)

/-- Modelled from the spec: even-odd (crossing-number) test whether the
point (x, y) lies strictly inside the polygon with the given vertices,
as in the external raster library's point_in_polygon. -/
def pointInPoly (pts : List (ℚ × ℚ)) (x y : ℚ) : Bool :=
  (pipEdges pts).foldl (pipStep x y) false

/-- Modelled from the spec: skimage.draw.polygon on the mapped integer
vertex coordinates (the library itself is an external collaborator not
in this repository).  Every integer pixel of the vertex bounding box
passing the even-odd test is returned, in row-major order, as a pair of
one-dimensional index arrays here zipped into one list; a degenerate
input (all vertices on one point or one line, or an empty vertex list)
legitimately yields zero pixels (spec §4.2).  The x coordinate of the
test is the column and the y coordinate the row. -/
def drawPolygon (coords : List (Nat × Nat)) : List (Nat × Nat) :=
  match coords with
  | [] => []
  | c0 :: _ =>
    let rs := coords.map (fun rc => rc.1)
    let cs := coords.map (fun rc => rc.2)
    let minr := rs.foldl Nat.min c0.1
    let maxr := rs.foldl Nat.max c0.1
    let minc := cs.foldl Nat.min c0.2
    let maxc := cs.foldl Nat.max c0.2
    let poly := coords.map (fun rc => ((rc.2 : ℚ), (rc.1 : ℚ)))
    (List.range (maxr + 1 - minr)).flatMap (fun dr =>
      (List.range (maxc + 1 - minc)).filterMap (fun dc =>
        if pointInPoly poly ((minc + dc : Nat) : ℚ) ((minr + dr : Nat) : ℚ)
        then some (minr + dr, minc + dc) else none))

/-- The vertex-to-grid mapping step of Mask._gridify: query the tree
for every vertex, drop the sentinel indices of vertices with no match
within the bound (np.delete of the positions where inds >= len(data)),
and unravel the surviving flat indices into (row, col) pairs.
np.unravel_index's own bound check cannot fire because every surviving
index is below len(tree.data) = rows * cols. -/
def mappedCoords (tree : List (ℚ × ℚ)) (dx : Option ℚ) (cols : Nat)
    (points : List (ℚ × ℚ)) : List (Nat × Nat) :=
  (((points.map (queryIdx tree dx)).filter (fun i => i < tree.length)).map
    (fun i => (i / cols, i % cols)))

/-- Mask._gridify: pair the exterior coordinate sequences (strict zip;
a length mismatch raises ValueError), map the vertices onto the grid
and scan-fill the mapped polygon, returning the fill pixels and the
mapped vertex coordinates. -/
def gridify (tree : List (ℚ × ℚ)) (dx : Option ℚ) (cols : Nat)
    (ring : Exterior) : Except PyError (List (Nat × Nat) × List (Nat × Nat)) :=
  match zipStrict ring.px ring.py with
  | none => .error (.valueError strictZipMsg)
  | some points =>
    let coords := mappedCoords tree dx cols points
    .ok (drawPolygon coords, coords)

/-- The NumPy shape tuple of the fill result: draw.polygon returns
one-dimensional index arrays, so the shape is always the one-element
tuple (number of pixels,), never the empty tuple of a 0-d array. -/
def fillShape (fill : List (Nat × Nat)) : List Nat := [fill.length]

/-- mask[x, y] += 1 with NumPy fancy indexing: the gathered values are
incremented and scattered back, so each distinct position present among
the index pairs is incremented exactly once, regardless of
multiplicity. -/
def maskAddOnce (m : Mat Nat) (pts : List (Nat × Nat)) : Mat Nat :=
  matMapIdx m (fun k v => v + if (k / m.cols, k % m.cols) ∈ pts then 1 else 0)

/-- The fallback loop for pt in zip(*coords): mask[pt] += 1, which
increments a cell once per occurrence of its coordinate. -/
def maskAddEach (m : Mat Nat) (pts : List (Nat × Nat)) : Mat Nat :=
  matMapIdx m (fun k v => v + pts.countP (fun q => q = (k / m.cols, k % m.cols)))

/-- Mask._update_mask: the source tests `not x.shape`, the truthiness
of the shape tuple of the first fill array, which is True only for a
0-dimensional array; for the one-dimensional arrays draw.polygon
returns (even empty ones, of shape (0,)) it is False and the vectorised
increment runs. -/
def update_mask (m : Mat Nat) (fill coords : List (Nat × Nat)) : Mat Nat :=
  if fillShape fill = ([] : List Nat) then maskAddEach m coords
  else maskAddOnce m fill

/-- mask[mask > 1] = 1: clamp every accumulated count above 1 down
to 1. -/
def finalizeMask (m : Mat Nat) : Mat Nat :=
  matMapIdx m (fun _ v => if 1 < v then 1 else v)

/-- Process one exterior ring: gridify it and update the mask; a raised
error carries the mask accumulated so far. -/
def processRing (tree : List (ℚ × ℚ)) (dx : Option ℚ) (cols : Nat)
    (ring : Exterior) (m : Mat Nat) : Except (PyError × Mat Nat) (Mat Nat) :=
  match gridify tree dx cols ring with
  | .error e => .error (e, m)
  | .ok fc => .ok (update_mask m fc.1 fc.2)

/-- The loop over the parts of a MultiPolygon. -/
def processParts (tree : List (ℚ × ℚ)) (dx : Option ℚ) (cols : Nat) :
    List Exterior → Mat Nat → Except (PyError × Mat Nat) (Mat Nat)
  | [], m => .ok m
  | r :: rs, m =>
    match processRing tree dx cols r m with
    | .error e => .error e
    | .ok m' => processParts tree dx cols rs m'

/-- Attribute lookup geom.__qualname__ on a geometry instance: CPython
stores __qualname__ on the class object itself (type.__new__ removes it
from the class dict and keeps it in the heap type), so instance
attribute lookup never finds it and an AttributeError is raised; the
f-string of the raise statement in Mask.make evaluates this lookup
before NotImplementedError can be constructed. -/
def qualnameAttr (kind : String) : Except PyError String :=
  .error (.attributeError (kind ++ " object has no attribute __qualname__"))

/-- Dispatch on geom.geom_type in the loop body of Mask.make. -/
def processGeom (tree : List (ℚ × ℚ)) (dx : Option ℚ) (cols : Nat)
    (g : Geometry) (m : Mat Nat) : Except (PyError × Mat Nat) (Mat Nat) :=
  match g with
  | .polygon r => processRing tree dx cols r m
  | .multipolygon ps => processParts tree dx cols ps m
  | .other kind =>
    match qualnameAttr kind with
    | .error e => .error (e, m)
    | .ok q => .error (.notImplementedError ("Cannot process " ++ q ++ " geometry."), m)

/-- The feature loop of Mask.make. -/
def processFeatures (tree : List (ℚ × ℚ)) (dx : Option ℚ) (cols : Nat) :
    List Geometry → Mat Nat → Except (PyError × Mat Nat) (Mat Nat)
  | [], m => .ok m
  | g :: gs, m =>
    match processGeom tree dx cols g m with
    | .error e => .error e
    | .ok m' => processFeatures tree dx cols gs m'

/-- Mask.make: guard against an existing tree, build the tree, allocate
the zero mask, process every feature, clamp.  An error carries the
state as mutated up to the raise: the guard and a _make_tree failure
leave the state untouched, a failure inside the loop leaves the tree
built and the mask partially accumulated. -/
def make (s : Mask) : Except (PyError × Mask) Mask :=
  match s.tree with
  | some _ => .error (.valueError "Tree already exists!", s)
  | none =>
    match make_tree s with
    | .error e => .error (e, s)
    | .ok tr =>
      let m0 := zerosMat s.x.rows s.x.cols
      match processFeatures tr s.dx s.x.cols s.features m0 with
      | .error em => .error (em.1, { s with tree := some tr, mask := some em.2 })
      | .ok m => .ok { s with tree := some tr, mask := some (finalizeMask m) }

/-- The per-cell contribution of one ring: 1 at every pixel of its
fill, 0 elsewhere (0 everywhere when gridify fails). -/
def ringContrib (tree : List (ℚ × ℚ)) (dx : Option ℚ) (cols : Nat)
    (ring : Exterior) (p : Nat × Nat) : Nat :=
  match gridify tree dx cols ring with
  | .error _ => 0
  | .ok fc => if p ∈ fc.1 then 1 else 0

/-- The per-cell contribution of one geometry. -/
def geomContrib (tree : List (ℚ × ℚ)) (dx : Option ℚ) (cols : Nat) :
    Geometry → Nat × Nat → Nat
  | .polygon r, p => ringContrib tree dx cols r p
  | .multipolygon ps, p => (ps.map (fun r => ringContrib tree dx cols r p)).sum
  | .other _, _ => 0

/-- Two geometries equal up to the processing order of the parts inside
a multi-polygon. -/
inductive GeomEquiv : Geometry → Geometry → Prop
  | polygon (r : Exterior) : GeomEquiv (.polygon r) (.polygon r)
  | multipolygon {ps qs : List Exterior} (h : ps.Perm qs) :
      GeomEquiv (.multipolygon ps) (.multipolygon qs)
  | other (k : String) : GeomEquiv (.other k) (.other k)

/-- Two feature lists equal up to processing order: a permutation of
the geometries together with a permutation of the parts inside each
multi-polygon. -/
def FeatEquiv (l l' : List Geometry) : Prop :=
  ∃ m, l.Perm m ∧ List.Forall₂ GeomEquiv m l'

/-- A geometry holding an exterior ring whose two coordinate sequences
have different lengths. -/
def hasMismatchedRing : Geometry → Prop
  | .polygon r => r.px.length ≠ r.py.length
  | .multipolygon ps => ∃ r ∈ ps, r.px.length ≠ r.py.length
  | .other _ => False

/-- The added polygon covers the cell: under the tree this Mask builds,
the cell is among the polygon's fill pixels. -/
def covers (s : Mask) (ring : Exterior) (cell : Nat × Nat) : Prop :=
  ∀ tr, make_tree s = .ok tr →
    ∃ fc, gridify tr s.dx s.x.cols ring = .ok fc ∧ cell ∈ fc.1

/-- Concrete 2x2 grid of x coordinates (columns at x = 0 and x = 1). -/
def gx2 : Mat ℚ := ⟨2, 2, [0, 1, 0, 1], rfl⟩

/-- Concrete 2x2 grid of y coordinates (rows at y = 0 and y = 1). -/
def gy2 : Mat ℚ := ⟨2, 2, [0, 0, 1, 1], rfl⟩

/-- The tree points of the 2x2 grid, in flat row-major order. -/
def tpts2 : List (ℚ × ℚ) := [(0, 0), (1, 0), (0, 1), (1, 1)]

/-- A closed square ring through all four grid points. -/
def sqRing : Exterior := ⟨[0, 1, 1, 0, 0], [0, 0, 1, 1, 0]⟩

/-- A closed tiny triangle ring whose every vertex is nearest to the
grid point (0, 0), hence maps to the single cell (0, 0). -/
def triRing : Exterior := ⟨[1/10, 2/10, 1/10, 1/10], [1/10, 1/10, 2/10, 1/10]⟩

/-- A closed ring far away from every point of the 2x2 grid. -/
def farRing : Exterior := ⟨[100, 101, 100, 100], [100, 100, 101, 100]⟩

/-- The all-zero 2x2 mask. -/
def zeroMask2 : Mat Nat := ⟨2, 2, [0, 0, 0, 0], rfl⟩

/-- The 2x2 mask with a single filled cell (0, 0). -/
def oneMask2 : Mat Nat := ⟨2, 2, [1, 0, 0, 0], rfl⟩

/-- Fresh Mask on the 2x2 grid with the given features. -/
def st2 (fs : List Geometry) : Mask := ⟨gx2, gy2, none, true, fs, none, none⟩

/-- Fresh Mask on the 2x2 grid with search bound dx = 1. -/
def st2dx (fs : List Geometry) : Mask := ⟨gx2, gy2, some 1, true, fs, none, none⟩

/-- A 2x3 array of corner x coordinates 0, 2, 4 on both rows. -/
def cornerX : Mat ℚ := ⟨2, 3, [0, 2, 4, 0, 2, 4], rfl⟩

/-- A 2x3 array of corner y coordinates 0 on the first row and 10 on
the second. -/
def cornerY : Mat ℚ := ⟨2, 3, [0, 0, 0, 10, 10, 10], rfl⟩

/-- Fresh Mask on the corner grid with centered=False. -/
def stCorner : Mask := ⟨cornerX, cornerY, none, false, [], none, none⟩

/-- A 2x3 grid-x paired with a 3x2 grid-y: incompatible shapes but the
same number of elements. -/
def shpX : Mat ℚ := ⟨2, 3, [0, 1, 2, 3, 4, 5], rfl⟩

/-- See shpX: the transposed-shape y array. -/
def shpY : Mat ℚ := ⟨3, 2, [0, 1, 2, 3, 4, 5], rfl⟩

/-- Fresh Mask whose grid arrays have mismatched shapes of equal size. -/
def stShp : Mask := ⟨shpX, shpY, none, true, [], none, none⟩

/-- Fresh Mask whose grid arrays have different element counts. -/
def stLen : Mask := ⟨⟨1, 2, [0, 1], rfl⟩, ⟨1, 1, [0], rfl⟩, none, true, [], none, none⟩

/-- The state s after building tree tr and storing mask m (the shape a
state has after make() ran, whether it finished or raised mid-loop). -/
def mkDone (s : Mask) (tr : List (ℚ × ℚ)) (m : Mat Nat) : Mask :=
  ⟨s.x, s.y, s.dx, s.centered, s.features, some m, some tr⟩

theorem mapIdxGo_length (f : Nat → α → β) (n : Nat) (l : List α) :
    (mapIdxGo f n l).length = l.length := by
  induction l generalizing n with
  | nil => rfl
  | cons a xs ih => simp [mapIdxGo, ih]

theorem mapIdxGo_getD (f : Nat → α → β) (n : Nat) (l : List α) (i : Nat)
    (d : β) (d' : α) (h : i < l.length) :
    (mapIdxGo f n l).getD i d = f (n + i) (l.getD i d') := by
  induction l generalizing n i with
  | nil => simp at h
  | cons a xs ih =>
    cases i with
    | zero => simp [mapIdxGo]
    | succ k =>
      have hk : k < xs.length := by simpa using h
      simp only [mapIdxGo, List.getD_cons_succ]
      rw [ih (n + 1) k hk]
      congr 1
      omega

theorem mapIdxGo_id (f : Nat → α → α) (hf : ∀ k a, f k a = a) (n : Nat)
    (l : List α) : mapIdxGo f n l = l := by
  induction l generalizing n with
  | nil => rfl
  | cons a xs ih => simp [mapIdxGo, hf, ih]

theorem Mat.data_ext {α : Type} {m₁ m₂ : Mat α} (hr : m₁.rows = m₂.rows)
    (hc : m₁.cols = m₂.cols) (hd : m₁.data = m₂.data) : m₁ = m₂ := by
  cases m₁
  cases m₂
  cases hr
  cases hc
  cases hd
  rfl

theorem flat_lt {r c rows cols : Nat} (hr : r < rows) (hc : c < cols) :
    r * cols + c < rows * cols := by
  have h1 : r * cols + c < r * cols + cols := by omega
  have h2 : r * cols + cols = (r + 1) * cols := by ring
  have h3 : (r + 1) * cols ≤ rows * cols := Nat.mul_le_mul_right _ hr
  omega

theorem flat_div {r c cols : Nat} (hc : c < cols) : (r * cols + c) / cols = r := by
  have h0 : 0 < cols := by omega
  rw [Nat.mul_comm r cols, Nat.mul_add_div h0, Nat.div_eq_of_lt hc]
  omega

theorem flat_mod {r c cols : Nat} (hc : c < cols) : (r * cols + c) % cols = c := by
  rw [Nat.mul_comm r cols, Nat.mul_add_mod, Nat.mod_eq_of_lt hc]

theorem matMapIdx_entry {α β : Type} [Zero α] [Zero β] (m : Mat α)
    (f : Nat → α → β) (p : Nat × Nat) (h1 : p.1 < m.rows) (h2 : p.2 < m.cols) :
    (matMapIdx m f).entry p =
      f (p.1 * m.cols + p.2) (m.data.getD (p.1 * m.cols + p.2) 0) := by
  have hk : p.1 * m.cols + p.2 < m.data.length := by
    rw [m.hlen]; exact flat_lt h1 h2
  simp only [Mat.entry, matMapIdx]
  rw [if_pos ⟨h1, h2⟩, mapIdxGo_getD f 0 m.data _ 0 0 hk, Nat.zero_add]

theorem Mat.entry_eq {α : Type} [Zero α] (m : Mat α) (i j : Nat)
    (h1 : i < m.rows) (h2 : j < m.cols) :
    m.entry (i, j) = m.data.getD (i * m.cols + j) 0 := by
  simp [Mat.entry, h1, h2]

theorem Mat.ext_entry {α : Type} [Zero α] {m₁ m₂ : Mat α}
    (hr : m₁.rows = m₂.rows) (hc : m₁.cols = m₂.cols)
    (he : ∀ p : Nat × Nat, p.1 < m₁.rows → p.2 < m₁.cols → m₁.entry p = m₂.entry p) :
    m₁ = m₂ := by
  obtain ⟨r1, c1, d1, h1⟩ := m₁
  obtain ⟨r2, c2, d2, h2⟩ := m₂
  simp only at hr hc he
  subst hr
  subst hc
  refine Mat.data_ext rfl rfl ?_
  have hlen : d1.length = d2.length := by rw [h1, h2]
  apply List.ext_getElem hlen
  intro k hk1 hk2
  have hklt : k < r1 * c1 := by rw [← h1]; exact hk1
  have hc0 : 0 < c1 := by
    rcases Nat.eq_zero_or_pos c1 with h0 | h0
    · rw [h0, Nat.mul_zero] at hklt; omega
    · exact h0
  have hdiv : k / c1 < r1 := by
    rw [Nat.div_lt_iff_lt_mul hc0]
    exact hklt
  have hmod : k % c1 < c1 := Nat.mod_lt _ hc0
  have hkey := he (k / c1, k % c1) hdiv hmod
  have hflat : k / c1 * c1 + k % c1 = k := by
    rw [Nat.mul_comm]
    exact Nat.div_add_mod k c1
  simp only [Mat.entry, if_pos (⟨hdiv, hmod⟩ : _ ∧ _), hflat] at hkey
  rw [List.getD_eq_getElem d1 0 hk1, List.getD_eq_getElem d2 0 hk2] at hkey
  exact hkey

theorem replicate_getD_zero (n k : Nat) :
    (List.replicate n (0 : Nat)).getD k 0 = 0 := by
  induction n generalizing k with
  | zero => simp
  | succ m ih => cases k <;> simp [List.replicate, ih]

theorem zerosMat_entry (rows cols : Nat) (p : Nat × Nat) :
    (zerosMat rows cols).entry p = 0 := by
  simp only [Mat.entry, zerosMat]
  split
  · exact replicate_getD_zero _ _
  · rfl

theorem update_mask_eq (m : Mat Nat) (fill coords : List (Nat × Nat)) :
    update_mask m fill coords = maskAddOnce m fill := by
  simp [update_mask, fillShape]

theorem maskAddOnce_nil (m : Mat Nat) : maskAddOnce m [] = m := by
  refine Mat.data_ext rfl rfl ?_
  simp only [maskAddOnce, matMapIdx]
  exact mapIdxGo_id _ (by simp) 0 m.data

theorem maskAddOnce_entry (m : Mat Nat) (pts : List (Nat × Nat))
    (p : Nat × Nat) (h1 : p.1 < m.rows) (h2 : p.2 < m.cols) :
    (maskAddOnce m pts).entry p = m.entry p + (if p ∈ pts then 1 else 0) := by
  rw [maskAddOnce, matMapIdx_entry m _ p h1 h2]
  rw [flat_div h2, flat_mod h2]
  have he : m.entry p = m.data.getD (p.1 * m.cols + p.2) 0 := by
    simp [Mat.entry, h1, h2]
  rw [he]

theorem finalizeMask_entry (m : Mat Nat) (p : Nat × Nat)
    (h1 : p.1 < m.rows) (h2 : p.2 < m.cols) :
    (finalizeMask m).entry p = if 1 < m.entry p then 1 else m.entry p := by
  rw [finalizeMask, matMapIdx_entry m _ p h1 h2]
  have he : m.entry p = m.data.getD (p.1 * m.cols + p.2) 0 := by
    simp [Mat.entry, h1, h2]
  rw [he]

theorem Mat.entry_in_range {m : Mat Nat} {p : Nat × Nat} (h : m.entry p ≠ 0) :
    p.1 < m.rows ∧ p.2 < m.cols := by
  by_contra hc
  simp only [Mat.entry, if_neg hc] at h
  exact h rfl

theorem processRing_ok {tree : List (ℚ × ℚ)} {dx : Option ℚ} {cols : Nat}
    {ring : Exterior} {m m' : Mat Nat}
    (h : processRing tree dx cols ring m = .ok m') :
    m'.rows = m.rows ∧ m'.cols = m.cols ∧
      ∀ p : Nat × Nat, p.1 < m.rows → p.2 < m.cols →
        m'.entry p = m.entry p + ringContrib tree dx cols ring p := by
  unfold processRing at h
  cases hg : gridify tree dx cols ring with
  | error e => rw [hg] at h; exact absurd h (by simp)
  | ok fc =>
    rw [hg] at h
    have hm : m' = update_mask m fc.1 fc.2 := by
      have := Except.ok.inj h
      exact this.symm
    subst hm
    rw [update_mask_eq]
    refine ⟨rfl, rfl, ?_⟩
    intro p hp1 hp2
    rw [maskAddOnce_entry m fc.1 p hp1 hp2]
    simp [ringContrib, hg]

theorem processParts_ok {tree : List (ℚ × ℚ)} {dx : Option ℚ} {cols : Nat} :
    ∀ {ps : List Exterior} {m m' : Mat Nat},
      processParts tree dx cols ps m = .ok m' →
      m'.rows = m.rows ∧ m'.cols = m.cols ∧
        ∀ p : Nat × Nat, p.1 < m.rows → p.2 < m.cols →
          m'.entry p = m.entry p +
            (ps.map (fun r => ringContrib tree dx cols r p)).sum := by
  intro ps
  induction ps with
  | nil =>
    intro m m' h
    have hm : m' = m := (Except.ok.inj h).symm
    subst hm
    exact ⟨rfl, rfl, fun p _ _ => by simp⟩
  | cons r rs ih =>
    intro m m' h
    unfold processParts at h
    cases hr : processRing tree dx cols r m with
    | error e => rw [hr] at h; exact absurd h (by simp)
    | ok m₁ =>
      rw [hr] at h
      obtain ⟨hr1, hr2, hre⟩ := processRing_ok hr
      obtain ⟨hp1, hp2, hpe⟩ := ih h
      refine ⟨by rw [hp1, hr1], by rw [hp2, hr2], ?_⟩
      intro p hb1 hb2
      rw [hpe p (by rw [hr1]; exact hb1) (by rw [hr2]; exact hb2),
        hre p hb1 hb2]
      simp [Nat.add_assoc]

theorem processGeom_ok {tree : List (ℚ × ℚ)} {dx : Option ℚ} {cols : Nat}
    {g : Geometry} {m m' : Mat Nat}
    (h : processGeom tree dx cols g m = .ok m') :
    m'.rows = m.rows ∧ m'.cols = m.cols ∧
      ∀ p : Nat × Nat, p.1 < m.rows → p.2 < m.cols →
        m'.entry p = m.entry p + geomContrib tree dx cols g p := by
  cases g with
  | polygon r => exact processRing_ok h
  | multipolygon ps => exact processParts_ok h
  | other kind => exact absurd h (by simp [processGeom, qualnameAttr])

theorem processFeatures_ok {tree : List (ℚ × ℚ)} {dx : Option ℚ} {cols : Nat} :
    ∀ {gs : List Geometry} {m m' : Mat Nat},
      processFeatures tree dx cols gs m = .ok m' →
      m'.rows = m.rows ∧ m'.cols = m.cols ∧
        ∀ p : Nat × Nat, p.1 < m.rows → p.2 < m.cols →
          m'.entry p = m.entry p +
            (gs.map (fun g => geomContrib tree dx cols g p)).sum := by
  intro gs
  induction gs with
  | nil =>
    intro m m' h
    have hm : m' = m := (Except.ok.inj h).symm
    subst hm
    exact ⟨rfl, rfl, fun p _ _ => by simp⟩
  | cons g gs ih =>
    intro m m' h
    unfold processFeatures at h
    cases hg : processGeom tree dx cols g m with
    | error e => rw [hg] at h; exact absurd h (by simp)
    | ok m₁ =>
      rw [hg] at h
      obtain ⟨hg1, hg2, hge⟩ := processGeom_ok hg
      obtain ⟨hp1, hp2, hpe⟩ := ih h
      refine ⟨by rw [hp1, hg1], by rw [hp2, hg2], ?_⟩
      intro p hb1 hb2
      rw [hpe p (by rw [hg1]; exact hb1) (by rw [hg2]; exact hb2),
        hge p hb1 hb2]
      simp [Nat.add_assoc]

theorem make_ok_inv {s r : Mask} (h : make s = .ok r) :
    ∃ tr acc, s.tree = none ∧ make_tree s = .ok tr ∧
      processFeatures tr s.dx s.x.cols s.features
        (zerosMat s.x.rows s.x.cols) = .ok acc ∧
      r = { s with tree := some tr, mask := some (finalizeMask acc) } := by
  unfold make at h
  cases hs : s.tree with
  | some tr0 => rw [hs] at h; exact absurd h (by simp)
  | none =>
    rw [hs] at h
    cases ht : make_tree s with
    | error e => rw [ht] at h; exact absurd h (by simp)
    | ok tr =>
      rw [ht] at h
      dsimp only at h
      cases hp : processFeatures tr s.dx s.x.cols s.features
          (zerosMat s.x.rows s.x.cols) with
      | error em => rw [hp] at h; exact absurd h (by simp)
      | ok acc =>
        rw [hp] at h
        exact ⟨tr, acc, rfl, rfl, hp, (Except.ok.inj h).symm⟩

theorem nearestAux_spec (p : ℚ × ℚ) :
    ∀ (l : List (ℚ × ℚ)) (k : Nat) (best : Option (Nat × ℚ)) (i : Nat) (d2 : ℚ),
      nearestAux p l k best = some (i, d2) →
      best = some (i, d2) ∨ ∃ q ∈ l, d2 = sqDist p q := by
  intro l
  induction l with
  | nil =>
    intro k best i d2 h
    exact .inl h
  | cons q qs ih =>
    intro k best i d2 h
    cases best with
    | none =>
      rcases ih (k + 1) (some (k, sqDist p q)) i d2 h with hb | ⟨q', hq', hd'⟩
      · exact .inr ⟨q, List.mem_cons_self q qs, (Prod.mk.inj (Option.some.inj hb)).2.symm⟩
      · exact .inr ⟨q', List.mem_cons_of_mem q hq', hd'⟩
    | some bid =>
      obtain ⟨bi, bd⟩ := bid
      simp only [nearestAux] at h
      by_cases hlt : sqDist p q < bd
      · rw [if_pos hlt] at h
        rcases ih (k + 1) _ i d2 h with hb | ⟨q', hq', hd'⟩
        · exact .inr ⟨q, List.mem_cons_self q qs, (Prod.mk.inj (Option.some.inj hb)).2.symm⟩
        · exact .inr ⟨q', List.mem_cons_of_mem q hq', hd'⟩
      · rw [if_neg hlt] at h
        rcases ih (k + 1) _ i d2 h with hb | ⟨q', hq', hd'⟩
        · exact .inl hb
        · exact .inr ⟨q', List.mem_cons_of_mem q hq', hd'⟩

theorem queryIdx_all_beyond {tree : List (ℚ × ℚ)} {dx : Option ℚ} {p : ℚ × ℚ}
    (h : ∀ q ∈ tree, beyondBound dx (sqDist p q)) :
    queryIdx tree dx p = tree.length := by
  unfold queryIdx
  cases hn : nearestAux p tree 0 none with
  | none => rfl
  | some id2 =>
    obtain ⟨i, d2⟩ := id2
    rcases nearestAux_spec p tree 0 none i d2 hn with habs | ⟨q, hq, hd⟩
    · exact absurd habs (by simp)
    · have hb := h q hq
      rw [← hd] at hb
      cases dx with
      | none => exact absurd hb (by simp [beyondBound])
      | some b =>
        simp only [beyondBound] at hb
        simp only [if_neg hb]

theorem zipStrict_eq_none {l₁ : List α} {l₂ : List β}
    (h : l₁.length ≠ l₂.length) : zipStrict l₁ l₂ = none := by
  induction l₁ generalizing l₂ with
  | nil =>
    cases l₂ with
    | nil => exact absurd rfl h
    | cons b ys => rfl
  | cons a xs ih =>
    cases l₂ with
    | nil => rfl
    | cons b ys =>
      have hne : xs.length ≠ ys.length := by
        intro he
        exact h (by simp [he])
      simp [zipStrict, ih hne]

theorem processRing_bad {tree : List (ℚ × ℚ)} {dx : Option ℚ} {cols : Nat}
    {ring : Exterior} (m : Mat Nat) (h : ring.px.length ≠ ring.py.length) :
    processRing tree dx cols ring m = .error (.valueError strictZipMsg, m) := by
  simp [processRing, gridify, zipStrict_eq_none h]

theorem processParts_bad {tree : List (ℚ × ℚ)} {dx : Option ℚ} {cols : Nat} :
    ∀ {ps : List Exterior} {m : Mat Nat},
      (∃ r ∈ ps, r.px.length ≠ r.py.length) →
      ∀ m', processParts tree dx cols ps m ≠ .ok m' := by
  intro ps
  induction ps with
  | nil =>
    intro m hex m' h
    obtain ⟨r, hr, -⟩ := hex
    simp at hr
  | cons r rs ih =>
    intro m hex m' h
    unfold processParts at h
    cases hr : processRing tree dx cols r m with
    | error e => rw [hr] at h; exact absurd h (by simp)
    | ok m₁ =>
      rw [hr] at h
      obtain ⟨r', hr', hbad⟩ := hex
      rcases List.mem_cons.mp hr' with hhead | htail
      · subst hhead
        rw [processRing_bad m hbad] at hr
        exact absurd hr (by simp)
      · exact ih ⟨r', htail, hbad⟩ m' h

theorem processGeom_bad {tree : List (ℚ × ℚ)} {dx : Option ℚ} {cols : Nat}
    {g : Geometry} {m : Mat Nat} (hb : hasMismatchedRing g) :
    ∀ m', processGeom tree dx cols g m ≠ .ok m' := by
  cases g with
  | polygon r =>
    intro m' h
    rw [show processGeom tree dx cols (.polygon r) m = processRing tree dx cols r m
      from rfl, processRing_bad m hb] at h
    exact absurd h (by simp)
  | multipolygon ps => exact processParts_bad hb
  | other kind => exact absurd hb (by simp [hasMismatchedRing])

theorem processFeatures_bad {tree : List (ℚ × ℚ)} {dx : Option ℚ} {cols : Nat} :
    ∀ {gs : List Geometry} {m : Mat Nat},
      (∃ g ∈ gs, hasMismatchedRing g) →
      ∀ m', processFeatures tree dx cols gs m ≠ .ok m' := by
  intro gs
  induction gs with
  | nil =>
    intro m hex m' h
    obtain ⟨g, hg, -⟩ := hex
    simp at hg
  | cons g gs ih =>
    intro m hex m' h
    unfold processFeatures at h
    cases hg0 : processGeom tree dx cols g m with
    | error e => rw [hg0] at h; exact absurd h (by simp)
    | ok m₁ =>
      rw [hg0] at h
      obtain ⟨g', hg', hbad⟩ := hex
      rcases List.mem_cons.mp hg' with hhead | htail
      · subst hhead
        exact processGeom_bad hbad m₁ hg0
      · exact ih ⟨g', htail, hbad⟩ m' h

theorem processFeatures_append {tree : List (ℚ × ℚ)} {dx : Option ℚ} {cols : Nat} :
    ∀ {l₁ l₂ : List Geometry} {m m₂ : Mat Nat},
      processFeatures tree dx cols (l₁ ++ l₂) m = .ok m₂ →
      ∃ m₁, processFeatures tree dx cols l₁ m = .ok m₁ ∧
        processFeatures tree dx cols l₂ m₁ = .ok m₂ := by
  intro l₁
  induction l₁ with
  | nil =>
    intro l₂ m m₂ h
    exact ⟨m, rfl, h⟩
  | cons g gs ih =>
    intro l₂ m m₂ h
    rw [List.cons_append] at h
    unfold processFeatures at h
    cases hg : processGeom tree dx cols g m with
    | error e => rw [hg] at h; exact absurd h (by simp)
    | ok m₁ =>
      rw [hg] at h
      obtain ⟨mid, h1, h2⟩ := ih h
      refine ⟨mid, ?_, h2⟩
      unfold processFeatures
      rw [hg]
      exact h1

theorem geomContrib_equiv {tree : List (ℚ × ℚ)} {dx : Option ℚ} {cols : Nat}
    {g g' : Geometry} (h : GeomEquiv g g') (p : Nat × Nat) :
    geomContrib tree dx cols g p = geomContrib tree dx cols g' p := by
  cases h with
  | polygon r => rfl
  | multipolygon hp =>
    simp only [geomContrib]
    exact (hp.map (fun r => ringContrib tree dx cols r p)).sum_eq
  | other k => rfl

theorem forall₂_contrib_eq {tree : List (ℚ × ℚ)} {dx : Option ℚ} {cols : Nat}
    (p : Nat × Nat) : ∀ {l l' : List Geometry}, List.Forall₂ GeomEquiv l l' →
      l.map (fun g => geomContrib tree dx cols g p) =
        l'.map (fun g => geomContrib tree dx cols g p) := by
  intro l l' h
  induction h with
  | nil => rfl
  | cons hg _ ih => simp only [List.map_cons, geomContrib_equiv hg p, ih]

theorem featEquiv_sum {tree : List (ℚ × ℚ)} {dx : Option ℚ} {cols : Nat}
    {l l' : List Geometry} (h : FeatEquiv l l') (p : Nat × Nat) :
    (l.map (fun g => geomContrib tree dx cols g p)).sum =
      (l'.map (fun g => geomContrib tree dx cols g p)).sum := by
  obtain ⟨mid, hperm, hfa⟩ := h
  rw [← forall₂_contrib_eq p hfa]
  exact (hperm.map (fun g => geomContrib tree dx cols g p)).sum_eq

theorem corrX_entry (m : Mat ℚ) (i j : Nat) (h1 : i < m.rows) (h2 : j < m.cols) :
    (corrX m).entry (i, j) =
      if j + 1 < m.cols then m.entry (i, j) + (m.entry (i, j + 1) - m.entry (i, j)) / 2
      else m.entry (i, j) + (m.entry (i, j) - m.entry (i, m.cols - 2)) / 2 := by
  rw [corrX, matMapIdx_entry m _ (i, j) h1 h2]
  rw [flat_div h2, flat_mod h2, ← Mat.entry_eq m i j h1 h2]

theorem corrY_entry (m : Mat ℚ) (i j : Nat) (h1 : i < m.rows) (h2 : j < m.cols) :
    (corrY m).entry (i, j) =
      if i + 1 < m.rows then m.entry (i, j) + (m.entry (i + 1, j) - m.entry (i, j)) / 2
      else m.entry (i, j) + (m.entry (i, j) - m.entry (m.rows - 2, j)) / 2 := by
  rw [corrY, matMapIdx_entry m _ (i, j) h1 h2]
  rw [flat_div h2, flat_mod h2, ← Mat.entry_eq m i j h1 h2]

theorem make_xy (s : Mask) :
    (∀ r, make s = .ok r → r.x = s.x ∧ r.y = s.y) ∧
    (∀ e r, make s = .error (e, r) → r.x = s.x ∧ r.y = s.y) := by
  constructor
  · intro r h
    obtain ⟨tr, acc, -, -, -, hr⟩ := make_ok_inv h
    subst hr
    exact ⟨rfl, rfl⟩
  · intro e r h
    unfold make at h
    cases hs : s.tree with
    | some tr0 =>
      rw [hs] at h
      have := Prod.mk.inj (Except.error.inj h)
      rw [← this.2]
      exact ⟨rfl, rfl⟩
    | none =>
      rw [hs] at h
      cases ht : make_tree s with
      | error e0 =>
        rw [ht] at h
        have := Prod.mk.inj (Except.error.inj h)
        rw [← this.2]
        exact ⟨rfl, rfl⟩
      | ok tr =>
        rw [ht] at h
        dsimp only at h
        cases hp : processFeatures tr s.dx s.x.cols s.features
            (zerosMat s.x.rows s.x.cols) with
        | error em =>
          rw [hp] at h
          have := Prod.mk.inj (Except.error.inj h)
          rw [← this.2]
          exact ⟨rfl, rfl⟩
        | ok acc => rw [hp] at h; exact absurd h (by simp)

theorem clamp_mem (n : Nat) (l : List Nat) :
    ∀ v ∈ mapIdxGo (fun _ v => if 1 < v then 1 else v) n l, v = 0 ∨ v = 1 := by
  induction l generalizing n with
  | nil => intro v hv; simp [mapIdxGo] at hv
  | cons a xs ih =>
    intro v hv
    simp only [mapIdxGo, List.mem_cons] at hv
    rcases hv with hv | hv
    · subst hv; split <;> omega
    · exact ih _ v hv

/-- C1: for every grid and every geometry set, after make() completes
successfully every value of the mask array is exactly 0 or 1 (the array
starts zero-filled, polygons only increment, and the final clamp sets
every value above 1 to 1). -/
theorem C1_mask_binary (s r : Mask) (m : Mat Nat)
    (h : make s = .ok r) (hm : r.mask = some m) :
    ∀ v ∈ m.data, v = 0 ∨ v = 1 := by
  obtain ⟨tr, acc, -, -, -, hr⟩ := make_ok_inv h
  subst hr
  have hm' : some (finalizeMask acc) = some m := hm
  have hmm : m = finalizeMask acc := (Option.some.inj hm').symm
  subst hmm
  exact clamp_mem 0 acc.data

attribute [local semireducible] Rat.add Rat.mul Rat.sub Rat.inv in
/-- C1 witness: the concrete square polygon on the 2x2 grid builds the
mask [1, 0, 0, 0]; its first value 1 is 0 or 1. -/
theorem C1_mask_binary_witness : (1 : Nat) = 0 ∨ (1 : Nat) = 1 :=
  C1_mask_binary (st2 [.polygon sqRing])
    (mkDone (st2 [.polygon sqRing]) tpts2 oneMask2)
    oneMask2 (by rfl) (by rfl) 1 (by simp [oneMask2])

/-- C2: if make() succeeded on an instance, a second make() call on the
resulting state raises ValueError (the tree already exists) and leaves
the state, in particular the mask of the first call, unchanged (the
error state is exactly the input state). -/
theorem C2_second_make_rejected (s s₁ : Mask) (h : make s = .ok s₁) :
    s₁.tree ≠ none ∧
      make s₁ = .error (.valueError "Tree already exists!", s₁) := by
  obtain ⟨tr, acc, -, -, -, hr⟩ := make_ok_inv h
  subst hr
  exact ⟨by simp, rfl⟩

attribute [local semireducible] Rat.add Rat.mul Rat.sub Rat.inv in
/-- C2 witness: make on the fresh empty-feature 2x2 state succeeds, and
the second call on its result raises with the result state unchanged. -/
theorem C2_second_make_rejected_witness :
    make (mkDone (st2 []) tpts2 zeroMask2) =
      .error (.valueError "Tree already exists!", mkDone (st2 []) tpts2 zeroMask2) :=
  (C2_second_make_rejected (st2 []) (mkDone (st2 []) tpts2 zeroMask2) (by rfl)).2

attribute [local semireducible] Rat.add Rat.mul Rat.sub Rat.inv in
/-- C3: counter-evidence for the degenerate-polygon fallback.  Every
vertex of the tiny triangle maps to the single grid cell (0, 0), yet
make() completes with that cell still 0: the fill is empty, and the
fallback branch is guarded by the truthiness of the shape tuple of a
one-dimensional array, which never fires, so the vertex cells are never
marked and the polygon is silently lost. -/
theorem C3_degenerate_polygon_lost :
    mappedCoords tpts2 none 2
        [(1/10, 1/10), (2/10, 1/10), (1/10, 2/10), (1/10, 1/10)] =
      [(0, 0), (0, 0), (0, 0), (0, 0)] ∧
    zipStrict triRing.px triRing.py =
      some [(1/10, 1/10), (2/10, 1/10), (1/10, 2/10), (1/10, 1/10)] ∧
    make (st2 [.polygon triRing]) =
      .ok (mkDone (st2 [.polygon triRing]) tpts2 zeroMask2) ∧
    zeroMask2.entry (0, 0) = 0 :=
  ⟨by rfl, by rfl, by rfl, by rfl⟩

attribute [local semireducible] Rat.add Rat.mul Rat.sub Rat.inv in
/-- C4: behaviour at an unsupported geometry kind.  The raise statement
first evaluates the f-string, whose attribute lookup geom.__qualname__
fails, so make() aborts with AttributeError instead of the intended
NotImplementedError naming the kind; processing stops there (the square
polygon listed after the Point is never rasterized: the partial mask in
the error state is still all zero). -/
theorem C4_unsupported_geometry_attribute_error :
    make (st2 [.other "Point", .polygon sqRing]) =
      .error (.attributeError "Point object has no attribute __qualname__",
        mkDone (st2 [.other "Point", .polygon sqRing]) tpts2 zeroMask2) := by
  rfl

/-- C5: when centered=False the spatial index is built over corrected
coordinates in which each interior x becomes the midpoint of the two
horizontally adjacent corner values and the last column is extrapolated
by adding half the last interior spacing; the same rule applies
row-wise to y; when centered=True the supplied coordinates are used
directly; and in both cases the stored grid arrays x and y are never
modified by make. -/
theorem C5_center_correction (s : Mask) (h2c : 2 ≤ s.x.cols) (h2r : 2 ≤ s.y.rows) :
    (s.centered = true → ∀ pts, zipStrict s.x.data s.y.data = some pts →
        make_tree s = .ok pts) ∧
    (s.centered = false → ∀ pts,
        zipStrict (corrX s.x).data (corrY s.y).data = some pts →
        make_tree s = .ok pts) ∧
    (∀ i j, i < s.x.rows → j + 1 < s.x.cols →
        (corrX s.x).entry (i, j) =
          (s.x.entry (i, j) + s.x.entry (i, j + 1)) / 2) ∧
    (∀ i, i < s.x.rows →
        (corrX s.x).entry (i, s.x.cols - 1) =
          s.x.entry (i, s.x.cols - 1) +
            (s.x.entry (i, s.x.cols - 1) - s.x.entry (i, s.x.cols - 2)) / 2) ∧
    (∀ i j, i + 1 < s.y.rows → j < s.y.cols →
        (corrY s.y).entry (i, j) =
          (s.y.entry (i, j) + s.y.entry (i + 1, j)) / 2) ∧
    (∀ j, j < s.y.cols →
        (corrY s.y).entry (s.y.rows - 1, j) =
          s.y.entry (s.y.rows - 1, j) +
            (s.y.entry (s.y.rows - 1, j) - s.y.entry (s.y.rows - 2, j)) / 2) ∧
    (∀ r, make s = .ok r → r.x = s.x ∧ r.y = s.y) ∧
    (∀ e r, make s = .error (e, r) → r.x = s.x ∧ r.y = s.y) := by
  refine ⟨?_, ?_, ?_, ?_, ?_, ?_, (make_xy s).1, (make_xy s).2⟩
  · intro hc pts hz
    simp [make_tree, hc, hz]
  · intro hc pts hz
    have hn1 : ¬ s.x.cols < 2 := by omega
    have hn2 : ¬ s.y.rows < 2 := by omega
    simp [make_tree, hc, hn1, hn2, hz]
  · intro i j hi hj
    rw [corrX_entry s.x i j hi (by omega), if_pos hj]
    ring
  · intro i hi
    rw [corrX_entry s.x i (s.x.cols - 1) hi (by omega), if_neg (by omega)]
  · intro i j hi hj
    rw [corrY_entry s.y i j (by omega) hj, if_pos hi]
    ring
  · intro j hj
    rw [corrY_entry s.y (s.y.rows - 1) j (by omega) hj, if_neg (by omega)]

attribute [local semireducible] Rat.add Rat.mul Rat.sub Rat.inv in
/-- C5 witness: on the concrete 2x3 corner grid, the first corrected x
entry is the midpoint of the first two corners (equal to 1). -/
theorem C5_center_correction_witness :
    (corrX stCorner.x).entry (0, 0) =
      (stCorner.x.entry (0, 0) + stCorner.x.entry (0, 1)) / 2 :=
  (C5_center_correction stCorner (by decide) (by decide)).2.2.1 0 0
    (by decide) (by decide)

/-- C6: a vertex whose nearest tree point is farther than dx is mapped
to the sentinel index len(tree.data), hence removed (never clamped to a
boundary cell), and every mapped coordinate that survives lies within
the grid shape bounds. -/
theorem C6_dropped_and_in_bounds (tree : List (ℚ × ℚ)) (dx : Option ℚ)
    (rows cols : Nat) (ring : Exterior) (fill coords : List (Nat × Nat))
    (htree : tree.length = rows * cols)
    (hg : gridify tree dx cols ring = .ok (fill, coords)) :
    (∀ p : ℚ × ℚ, (∀ q ∈ tree, beyondBound dx (sqDist p q)) →
        queryIdx tree dx p = tree.length) ∧
    (∀ rc ∈ coords, rc.1 < rows ∧ rc.2 < cols) := by
  constructor
  · intro p hp
    exact queryIdx_all_beyond hp
  · intro rc hrc
    unfold gridify at hg
    cases hz : zipStrict ring.px ring.py with
    | none => rw [hz] at hg; exact absurd hg (by simp)
    | some points =>
      rw [hz] at hg
      dsimp only at hg
      have hco : coords = mappedCoords tree dx cols points :=
        ((Prod.mk.inj (Except.ok.inj hg)).2).symm
      subst hco
      unfold mappedCoords at hrc
      rcases List.mem_map.mp hrc with ⟨i, hi, rfl⟩
      have hilen : i < tree.length := by
        have := List.mem_filter.mp hi
        simpa using this.2
      rw [htree] at hilen
      have hc0 : 0 < cols := by
        rcases Nat.eq_zero_or_pos cols with h0 | h0
        · rw [h0, Nat.mul_zero] at hilen; omega
        · exact h0
      exact ⟨(Nat.div_lt_iff_lt_mul hc0).mpr hilen, Nat.mod_lt _ hc0⟩

attribute [local semireducible] Rat.add Rat.mul Rat.sub Rat.inv in
/-- C6 witness: on the 2x2 grid and the concrete square ring, the
mapped coordinate (1, 1) is within bounds. -/
theorem C6_dropped_and_in_bounds_witness : (1 : Nat) < 2 ∧ (1 : Nat) < 2 :=
  (C6_dropped_and_in_bounds tpts2 none 2 2 sqRing [(0, 0)]
      [(0, 0), (0, 1), (1, 1), (1, 0), (0, 0)] rfl (by rfl)).2
    (1, 1) (by simp)

/-- C7: a polygon all of whose vertices lie farther than dx from every
grid point contributes nothing: every vertex is dropped, the scan fill
of the empty coordinate list is empty, and the vectorised update of the
mask with an empty index list leaves the mask unchanged (the fallback
branch is not taken either, since the fill result is one-dimensional). -/
theorem C7_far_polygon_no_op (tree : List (ℚ × ℚ)) (dx : Option ℚ)
    (cols : Nat) (ring : Exterior) (m : Mat Nat) (points : List (ℚ × ℚ))
    (hzip : zipStrict ring.px ring.py = some points)
    (hfar : ∀ p ∈ points, ∀ q ∈ tree, beyondBound dx (sqDist p q)) :
    processGeom tree dx cols (.polygon ring) m = .ok m := by
  have hmc : mappedCoords tree dx cols points = [] := by
    unfold mappedCoords
    have hfilter :
        (points.map (queryIdx tree dx)).filter (fun i => i < tree.length) = [] := by
      rw [List.filter_eq_nil_iff]
      intro i hi
      rcases List.mem_map.mp hi with ⟨p, hp, rfl⟩
      rw [queryIdx_all_beyond (hfar p hp)]
      simp
    rw [hfilter]
    rfl
  have hg : gridify tree dx cols ring = .ok ([], []) := by
    unfold gridify
    rw [hzip]
    dsimp only
    rw [hmc]
    rfl
  show processRing tree dx cols ring m = .ok m
  unfold processRing
  rw [hg]
  dsimp only
  rw [update_mask_eq, maskAddOnce_nil]

attribute [local semireducible] Rat.add Rat.mul Rat.sub Rat.inv in
/-- C7 witness: the far ring with bound dx = 1 on the 2x2 grid leaves
the zero mask unchanged. -/
theorem C7_far_polygon_no_op_witness :
    processGeom tpts2 (some 1) 2 (.polygon farRing) zeroMask2 = .ok zeroMask2 :=
  C7_far_polygon_no_op tpts2 (some 1) 2 farRing zeroMask2
    [(100, 100), (101, 100), (100, 101), (100, 100)] (by rfl) (by decide)

/-- C8: if a cell's finalized value is 1 after make() on a geometry
set, then make() on the same grid with one additional polygon covering
that cell still finalizes that cell to 1: the accumulated count can
only grow and the clamp maps every count of at least 1 to 1. -/
theorem C8_overlap_monotone (s : Mask) (p : Exterior) (r₁ r₂ : Mask)
    (m₁ m₂ : Mat Nat) (cell : Nat × Nat)
    (h₁ : make s = .ok r₁) (hm₁ : r₁.mask = some m₁)
    (hcell : m₁.entry cell = 1)
    (h₂ : make { s with features := s.features ++ [.polygon p] } = .ok r₂)
    (hm₂ : r₂.mask = some m₂) (hcov : covers s p cell) :
    m₂.entry cell = 1 := by
  obtain ⟨trA, accA, -, htA, hpA, hrA⟩ := make_ok_inv h₁
  obtain ⟨trB, accB, -, htB, hpB, hrB⟩ := make_ok_inv h₂
  have htBA : make_tree { s with features := s.features ++ [.polygon p] } =
      make_tree s := rfl
  rw [htBA, htA] at htB
  have htr : trA = trB := Except.ok.inj htB
  subst htr
  subst hrA
  subst hrB
  have hm₁' : some (finalizeMask accA) = some m₁ := hm₁
  have hm₂' : some (finalizeMask accB) = some m₂ := hm₂
  have hm₁e : m₁ = finalizeMask accA := (Option.some.inj hm₁').symm
  have hm₂e : m₂ = finalizeMask accB := (Option.some.inj hm₂').symm
  subst hm₁e
  subst hm₂e
  have hpB' : processFeatures trA s.dx s.x.cols (s.features ++ [.polygon p])
      (zerosMat s.x.rows s.x.cols) = .ok accB := hpB
  obtain ⟨mid, hmid, hstep⟩ := processFeatures_append hpB'
  rw [hpA] at hmid
  have hmida : accA = mid := Except.ok.inj hmid
  subst hmida
  obtain ⟨hB1, hB2, hBe⟩ := processFeatures_ok hstep
  have hcellne : (finalizeMask accA).entry cell ≠ 0 := by
    rw [hcell]
    exact one_ne_zero
  have hrange := Mat.entry_in_range hcellne
  have hc1 : cell.1 < accA.rows := hrange.1
  have hc2 : cell.2 < accA.cols := hrange.2
  have hfinA : (finalizeMask accA).entry cell =
      if 1 < accA.entry cell then 1 else accA.entry cell :=
    finalizeMask_entry accA cell hc1 hc2
  have haccA1 : 1 ≤ accA.entry cell := by
    rw [hfinA] at hcell
    split at hcell <;> omega
  have hBe' := hBe cell hc1 hc2
  have haccB : 1 ≤ accB.entry cell := by
    rw [hBe']
    omega
  have hc1B : cell.1 < accB.rows := by rw [hB1]; exact hc1
  have hc2B : cell.2 < accB.cols := by rw [hB2]; exact hc2
  rw [finalizeMask_entry accB cell hc1B hc2B]
  split <;> omega

attribute [local semireducible] Rat.add Rat.mul Rat.sub Rat.inv in
/-- C8 witness: the square polygon fills cell (0, 0); adding the same
square again still yields 1 there. -/
theorem C8_overlap_monotone_witness : oneMask2.entry (0, 0) = 1 := by
  refine C8_overlap_monotone (st2 [.polygon sqRing]) sqRing
    (mkDone (st2 [.polygon sqRing]) tpts2 oneMask2)
    (mkDone (st2 [.polygon sqRing, .polygon sqRing]) tpts2 oneMask2)
    oneMask2 oneMask2 (0, 0) (by rfl) (by rfl) (by rfl) (by rfl) (by rfl) ?_
  intro tr htr
  have hmt : make_tree (st2 [.polygon sqRing]) = Except.ok tpts2 := rfl
  rw [hmt] at htr
  have h0 : tpts2 = tr := Except.ok.inj htr
  subst h0
  exact ⟨([(0, 0)], [(0, 0), (0, 1), (1, 1), (1, 0), (0, 0)]), by rfl, by simp⟩

/-- C9 counterexample: a 2x3 x array paired with a 3x2 y array has
incompatible shapes, yet make() succeeds over the mispaired points and
produces a mask, because the only check is the strict zip of the two
flattened arrays, which compares element counts (6 = 6), not shapes. -/
theorem C9_equal_size_shape_mismatch_accepted :
    (stShp.x.rows ≠ stShp.y.rows ∧ stShp.x.cols ≠ stShp.y.cols) ∧
    make stShp = .ok (mkDone stShp
      [(0, 0), (1, 1), (2, 2), (3, 3), (4, 4), (5, 5)]
      ⟨2, 3, [0, 0, 0, 0, 0, 0], rfl⟩) :=
  ⟨⟨by decide, by decide⟩, by rfl⟩

/-- C9 amended: make() fails with the strict-zip ValueError when the
two grid arrays hold different element counts (with centered=True and
no prior tree); equal-count arrays of different 2D shapes are not
rejected.  A geometry containing an exterior ring with unequal-length
coordinate lists prevents make() from succeeding. -/
theorem C9_shape_errors_amended (s : Mask) :
    (s.tree = none → s.centered = true → s.x.data.length ≠ s.y.data.length →
      make s = .error (.valueError strictZipMsg, s)) ∧
    (∀ g ∈ s.features, hasMismatchedRing g → ∀ r, make s ≠ .ok r) := by
  constructor
  · intro ht hc hne
    have hmt : make_tree s = .error (.valueError strictZipMsg) := by
      unfold make_tree
      rw [hc]
      simp [zipStrict_eq_none hne]
    unfold make
    rw [ht]
    dsimp only
    rw [hmt]
  · intro g hg hb r hok
    obtain ⟨tr, acc, -, -, hp, -⟩ := make_ok_inv hok
    exact processFeatures_bad ⟨g, hg, hb⟩ acc hp

/-- C9 amended witness: a 1x2 x array with a 1x1 y array makes make()
fail with the strict-zip ValueError, the state untouched. -/
theorem C9_shape_errors_amended_witness :
    make stLen = .error (.valueError strictZipMsg, stLen) :=
  (C9_shape_errors_amended stLen).1 rfl rfl (by decide)

/-- C10: for a fixed grid, dx and centering, the finalized mask of
make() is invariant under reordering of the geometries and of the parts
inside each multi-polygon: per-cell contributions add up commutatively
and the final clamp depends only on the accumulated counts. -/
theorem C10_order_invariance (s s' r r' : Mask)
    (hx : s'.x = s.x) (hy : s'.y = s.y) (hdx : s'.dx = s.dx)
    (hc : s'.centered = s.centered) (hf : FeatEquiv s.features s'.features)
    (h : make s = .ok r) (h' : make s' = .ok r') :
    r.mask = r'.mask := by
  obtain ⟨trA, accA, -, htA, hpA, hrA⟩ := make_ok_inv h
  obtain ⟨trB, accB, -, htB, hpB, hrB⟩ := make_ok_inv h'
  have htEq : make_tree s' = make_tree s := by
    unfold make_tree
    rw [hx, hy, hc]
  rw [htEq, htA] at htB
  have htr : trA = trB := Except.ok.inj htB
  subst htr
  rw [hx, hdx] at hpB
  have haccEq : accA = accB := by
    obtain ⟨hA1, hA2, hAe⟩ := processFeatures_ok hpA
    obtain ⟨hB1, hB2, hBe⟩ := processFeatures_ok hpB
    refine Mat.ext_entry ?_ ?_ ?_
    · rw [hA1, hB1]
    · rw [hA2, hB2]
    · intro q hq1 hq2
      have hq1' : q.1 < (zerosMat s.x.rows s.x.cols).rows := by
        rw [← hA1]; exact hq1
      have hq2' : q.2 < (zerosMat s.x.rows s.x.cols).cols := by
        rw [← hA2]; exact hq2
      rw [hAe q hq1' hq2', hBe q hq1' hq2', zerosMat_entry]
      simp only [Nat.zero_add]
      exact featEquiv_sum hf q
  rw [hrA, hrB]
  show some (finalizeMask accA) = some (finalizeMask accB)
  rw [haccEq]

attribute [local semireducible] Rat.add Rat.mul Rat.sub Rat.inv in
/-- C10 witness: swapping a square polygon and a multi-polygon yields
the same mask [1, 0, 0, 0] on the 2x2 grid. -/
theorem C10_order_invariance_witness :
    (mkDone (st2 [.polygon sqRing, .multipolygon [triRing]]) tpts2 oneMask2).mask =
      (mkDone (st2 [.multipolygon [triRing], .polygon sqRing]) tpts2 oneMask2).mask :=
  C10_order_invariance
    (st2 [.polygon sqRing, .multipolygon [triRing]])
    (st2 [.multipolygon [triRing], .polygon sqRing])
    (mkDone (st2 [.polygon sqRing, .multipolygon [triRing]]) tpts2 oneMask2)
    (mkDone (st2 [.multipolygon [triRing], .polygon sqRing]) tpts2 oneMask2)
    rfl rfl rfl rfl
    (by
      refine ⟨[.multipolygon [triRing], .polygon sqRing], ?_, ?_⟩
      · show List.Perm [Geometry.polygon sqRing, Geometry.multipolygon [triRing]]
          [Geometry.multipolygon [triRing], Geometry.polygon sqRing]
        exact List.Perm.swap _ _ []
      · exact .cons (GeomEquiv.multipolygon (List.Perm.refl [triRing]))
          (.cons (GeomEquiv.polygon sqRing) .nil))
    (by rfl) (by rfl)

end Maskmaker
